import Mathlib

/-!
Verification of the Slack-export file downloader
(`src/Slack_export_parser.py`) against its specification.

Strings are modelled as `List Char` (`Str`), files as their textual
content (`Str` for whole files, `List Str` for a file viewed as lines).
The network is a capability: an oracle `Str → Nat → FetchRes` giving the
result of each attempt (`requests.get` + status check + body streaming)
for a given URL and retry counter.  The download directory is the list of
file names present in it.  All definitions are executable and are direct
translations of the Python source.
-/

abbrev Str := List Char

/-- Python `str.strip()` whitespace test (ASCII subset; the URLs handled
by the tool are ASCII). -/
def pyIsSpace (c : Char) : Bool :=
  c = ' ' || c = '\t' || c = '\n' || c = '\r' || c = '\x0b' || c = '\x0c'

/-- Remove trailing whitespace (the right half of Python `str.strip()`). -/
def stripEnd (s : Str) : Str :=
  (s.reverse.dropWhile pyIsSpace).reverse

/-- Python `str.strip()`. -/
def pyStrip (s : Str) : Str :=
  stripEnd (s.dropWhile pyIsSpace)

/-- Python `str.split(sep)` for a one-character separator.  Always returns
at least one (possibly empty) part; parts never contain the separator. -/
def splitOnChar (sep : Char) : Str → List Str
  | [] => [[]]
  | c :: cs =>
    let r := splitOnChar sep cs
    if c = sep then [] :: r else (c :: r.headD []) :: r.tail

/-- Writing a list of lines to a file: each line followed by `"\n"`,
exactly as the source's `f.write(f"{url}\n")` loops do. -/
def writeLines (ls : List Str) : Str :=
  ls.foldr (fun l acc => l ++ '\n' :: acc) []

/-! ### `urllib.parse.urlparse(url).path`

Translation of the CPython `urlsplit` path extraction: strip surrounding
control characters/spaces and interior tab/CR/LF, split off a valid
scheme (`alpha (alphanum|+|-|.)* ":"`), a `"//"`-introduced netloc
(terminated by `/`, `?` or `#`), then the fragment (after `#`) and the
query (after `?`). -/

def isSchemeChar (c : Char) : Bool :=
  c.isAlphanum || c = '+' || c = '-' || c = '.'

def urlPreprocess (u : Str) : Str :=
  (((u.dropWhile (fun c => c ≤ ' ')).reverse.dropWhile (fun c => c ≤ ' ')).reverse).filter
    (fun c => !(c = '\t' || c = '\r' || c = '\n'))

def dropScheme (u : Str) : Str :=
  let pre := u.takeWhile (fun c => c ≠ ':')
  if pre.length < u.length ∧ pre ≠ [] ∧ (u.headD ' ').isAlpha ∧ pre.all isSchemeChar then
    u.drop (pre.length + 1)
  else u

def dropNetloc (u : Str) : Str :=
  if u.take 2 = ['/', '/'] then
    (u.drop 2).dropWhile (fun c => !(c = '/' || c = '?' || c = '#'))
  else u

def urlPath (url : Str) : Str :=
  ((dropNetloc (dropScheme (urlPreprocess url))).takeWhile (fun c => c ≠ '#')).takeWhile
    (fun c => c ≠ '?')

/-- `os.path.basename` for POSIX paths: what follows the last `/`
(equivalently, the last `'/'`-separated part). -/
def basename (p : Str) : Str :=
  (splitOnChar '/' p).getLastD []

/-! ### `process_url_file` — the Deduplicator / Namer -/

/-- Reading the work file: `[line.strip() for line in f if line.strip()]`. -/
def readUrls (content : Str) : List Str :=
  ((splitOnChar '\n' content).map pyStrip).filter (fun l => !l.isEmpty)

/-- The duplicate-removal loop over `urls` with its `seen` set,
preserving first-seen order. -/
def dedupGo (seen : List Str) : List Str → List Str
  | [] => []
  | u :: us => if u ∈ seen then dedupGo seen us else u :: dedupGo (u :: seen) us

def downloadSeg : Str := "download".data

/-- Filename derivation of `process_url_file`: the path part after the
first `"download"` segment, `"download.bin"` if that segment is last,
else the basename, else `"file.bin"`. -/
def get_filename (url : Str) : Str :=
  let path := urlPath url
  let path_parts := splitOnChar '/' path
  let i := path_parts.indexOf downloadSeg
  if i < path_parts.length then
    if i < path_parts.length - 1 then path_parts.getD (i + 1) [] else "download.bin".data
  else
    let b := basename path
    if b = [] then "file.bin".data else b

def isIdChar (c : Char) : Bool :=
  (decide ('A' ≤ c) && decide (c ≤ 'Z')) || (decide ('0' ≤ c) && decide (c ≤ '9'))

/-- One anchored trial of `re.search(r"/([A-Z0-9]+)-([A-Z0-9]+)/download/", path)`
at the current position; returns the second capture group.  Because the
`[A-Z0-9]` class excludes `-` and `/`, the greedy groups are exactly the
maximal runs of class characters, so no further backtracking exists. -/
def idMatchAt : Str → Option Str
  | '/' :: rest =>
    let r1 := rest.takeWhile isIdChar
    let rest1 := rest.dropWhile isIdChar
    if r1 = [] then none
    else
      match rest1 with
      | '-' :: rest2 =>
        let r2 := rest2.takeWhile isIdChar
        let rest3 := rest2.dropWhile isIdChar
        if r2 = [] then none
        else if rest3.take 10 = "/download/".data then some r2 else none
      | _ => none
  | _ => none

/-- `re.search`: leftmost matching position. -/
def searchId : Str → Option Str
  | [] => none
  | c :: rest =>
    match idMatchAt (c :: rest) with
    | some g2 => some g2
    | none => searchId rest

/-- `file_id`: `"-" + group(2)` on a match, else empty. -/
def extract_id (path : Str) : Str :=
  match searchId path with
  | some g2 => '-' :: g2
  | none => []

/-- `filename.rsplit(".", 1)` handling: `(base_name, extension)`, with the
extension carrying its dot only when nonempty. -/
def rsplitDotParts (f : Str) : Str × Str :=
  if '.' ∈ f then
    let revf := f.reverse
    let extPart := (revf.takeWhile (fun c => c ≠ '.')).reverse
    let base := ((revf.dropWhile (fun c => c ≠ '.')).drop 1).reverse
    (base, if extPart = [] then [] else '.' :: extPart)
  else (f, [])

structure UrlInfo where
  url : Str
  original_filename : Str
  base_name : Str
  extension : Str
  id : Str
deriving DecidableEq, Repr

def mk_url_info (u : Str) : UrlInfo :=
  { url := u
    original_filename := get_filename u
    base_name := (rsplitDotParts (get_filename u)).1
    extension := (rsplitDotParts (get_filename u)).2
    id := extract_id (urlPath u) }

/-- The mapped name of one URL: suffix with the id exactly when its
original filename occurs more than once among the unique URLs. -/
def unique_filename (infos : List UrlInfo) (info : UrlInfo) : Str :=
  if 1 < (infos.map (fun i => i.original_filename)).count info.original_filename then
    info.base_name ++ info.id ++ info.extension
  else
    info.original_filename

structure ProcessResult where
  unique_urls : List Str
  filename_mapping : List (Str × Str)
  newContent : Str
deriving DecidableEq, Repr

/-- `process_url_file`, acting on the work file's content.  (The
missing-file early return lives outside this content-level model; the
claims below all concern an existing work file.)  The rewritten file
content is returned as `newContent`. -/
def process_url_file (content : Str) : ProcessResult :=
  let urls := readUrls content
  let unique_urls := dedupGo [] urls
  let url_info := unique_urls.map mk_url_info
  let filename_mapping := url_info.map (fun info => (info.url, unique_filename url_info info))
  { unique_urls := unique_urls
    filename_mapping := filename_mapping
    newContent := writeLines unique_urls }

/-! ### `download_files_from_urls` — the Download Executor

The transport is an oracle `fetch : Str → Nat → FetchRes` giving, for a
URL and the value of `retry_count` at call time, the result of that
attempt: `success` (2xx and the body streamed to disk), `failNoWrite`
(connection/status error before the destination file is opened) or
`failPartial` (error while streaming, leaving a partial file behind).
`pyHash` stands in for Python's (per-process randomized) `hash` used by
the dead-in-flow fallback naming branch. -/

inductive FetchRes
  | success
  | failNoWrite
  | failPartial
deriving DecidableEq, Repr

def max_retries : Nat := 3

structure AttemptOut where
  ok : Bool
  attempts : Nat
  backoffs : List Nat
  wrotePartial : Bool
deriving DecidableEq, Repr

/-- The `while retry_count <= max_retries and not download_success` loop
for one URL, entered with `retry_count = retry` and
`download_success = False`.  `fuel` bounds the number of further
iterations; callers pass `max_retries`, which always suffices because the
loop re-enters only while `retry + 1 ≤ max_retries`.  Returns whether the
download succeeded, the number of `requests.get` calls made, the fixed
backoff sleeps performed, and whether any failed attempt left a partial
file. -/
def attempt_go (fetch : Nat → FetchRes) : Nat → Nat → AttemptOut
  | retry, 0 =>
    -- out of fuel: unreachable from `attempt_loop`, which passes enough
    -- fuel for every possible re-entry of the loop
    match fetch retry with
    | .success => { ok := true, attempts := retry + 1, backoffs := [], wrotePartial := false }
    | r =>
      { ok := false, attempts := retry + 1, backoffs := []
        wrotePartial := decide (r = FetchRes.failPartial) }
  | retry, fuel + 1 =>
    match fetch retry with
    | .success => { ok := true, attempts := retry + 1, backoffs := [], wrotePartial := false }
    | r =>
      let part := decide (r = FetchRes.failPartial)
      if retry + 1 ≤ max_retries then
        let wait_time := if retry + 1 < max_retries then 30 else 90
        let rest := attempt_go fetch (retry + 1) fuel
        { ok := rest.ok, attempts := rest.attempts
          backoffs := wait_time :: rest.backoffs
          wrotePartial := part || rest.wrotePartial }
      else
        { ok := false, attempts := retry + 1, backoffs := [], wrotePartial := part }

def attempt_loop (fetch : Nat → FetchRes) (retry : Nat) : AttemptOut :=
  attempt_go fetch retry max_retries

inductive DLOutcome
  | skipped
  | succeeded
  | failedPerm
deriving DecidableEq, Repr

/-- `f"[FAILED] {current_url}"`. -/
def failedTag (u : Str) : Str := "[FAILED] ".data ++ u

/-- The fallback name when the mapping misses (cannot happen in this
flow, since the executor builds the mapping over the same unique list). -/
def resolveName (mapping : List (Str × Str)) (pyHash : Str → Nat) (u : Str) : Str :=
  match mapping.lookup u with
  | some n => n
  | none =>
    let fn := basename (urlPath u)
    if fn = [] ∨ fn = downloadSeg then
      "download_".data ++ Nat.toDigits 10 (pyHash u % 10000) ++ ".bin".data
    else fn

/-- `"".join(c for c in file_name if c.isalnum() or c in "._- ")`
(ASCII `isalnum`; the tool's filenames are ASCII). -/
def sanitizeName (f : Str) : Str :=
  f.filter (fun c => c.isAlphanum || (['.', '_', '-', ' '] : List Char).contains c)

def target_name (mapping : List (Str × Str)) (pyHash : Str → Nat) (u : Str) : Str :=
  sanitizeName (resolveName mapping pyHash u)

structure DLState where
  files : List Str
  success_count : Nat
  fail_count : Nat
  skipped_count : Nat
  fileLines : List Str
  fetchLog : List (Str × Nat)
  backoffs : List Nat
  rewrites : List (List Str)
  outcomes : List DLOutcome
deriving DecidableEq, Repr

/-- One iteration of the outer `while remaining_urls:` loop, processing
`current_url = u` with `remaining_urls.pop(0) = rest`.  `fileLines` is
the persisted work-file content; `rewrites` records each work-file
rewrite; `fetchLog` records every `requests.get` call as
`(current_url, retry_count)`. -/
def processOne (mapping : List (Str × Str)) (pyHash : Str → Nat)
    (fetch : Str → Nat → FetchRes) (u : Str) (rest : List Str) (s : DLState) : DLState :=
  let name := target_name mapping pyHash u
  if name ∈ s.files then
    { s with skipped_count := s.skipped_count + 1
             outcomes := s.outcomes ++ [.skipped] }
  else
    let att := attempt_loop (fetch u) 0
    let log := s.fetchLog ++ (List.range att.attempts).map (fun r => (u, r))
    if att.ok then
      { files := s.files ++ [name]
        success_count := s.success_count + 1
        fail_count := s.fail_count
        skipped_count := s.skipped_count
        fileLines := rest
        fetchLog := log
        backoffs := s.backoffs ++ att.backoffs
        rewrites := s.rewrites ++ [rest]
        outcomes := s.outcomes ++ [.succeeded] }
    else
      { files := s.files ++ (if att.wrotePartial then [name] else [])
        success_count := s.success_count
        fail_count := s.fail_count + 1
        skipped_count := s.skipped_count
        fileLines := failedTag u :: rest
        fetchLog := log
        backoffs := s.backoffs ++ att.backoffs
        rewrites := s.rewrites ++ [failedTag u :: rest]
        outcomes := s.outcomes ++ [.failedPerm] }

def run_loop (mapping : List (Str × Str)) (pyHash : Str → Nat)
    (fetch : Str → Nat → FetchRes) : List Str → DLState → DLState
  | [], s => s
  | u :: rest, s => run_loop mapping pyHash fetch rest (processOne mapping pyHash fetch u rest s)

def initState (files0 : List Str) (lines : List Str) : DLState :=
  { files := files0, success_count := 0, fail_count := 0, skipped_count := 0
    fileLines := lines, fetchLog := [], backoffs := [], rewrites := [], outcomes := [] }

/-- The whole executor run: recompute the dedup/mapping from the work
file (which `process_url_file` rewrites to the unique list — the initial
persisted state), then drain the remaining-URL list.  `files0` is the
content of the download directory at start. -/
def download_run (content : Str) (files0 : List Str) (pyHash : Str → Nat)
    (fetch : Str → Nat → FetchRes) : DLState :=
  let pr := process_url_file content
  run_loop pr.filename_mapping pyHash fetch pr.unique_urls (initState files0 pr.unique_urls)

/-- The value `download_files_from_urls` returns: `(success_count, fail_count)`. -/
def download_files_from_urls (content : Str) (files0 : List Str) (pyHash : Str → Nat)
    (fetch : Str → Nat → FetchRes) : Nat × Nat :=
  let s := download_run content files0 pyHash fetch
  (s.success_count, s.fail_count)

/-! ### `extract_urls_from_json` — the URL Extractor

The parsed JSON value (`json.load`'s result) is modelled by `JVal`
(numbers as integers — no claim touches numeric values); objects are
association lists.  `LoadResult` captures `json.load`'s outcome: the
`except` clauses of the source (missing file, invalid JSON, other
errors) versus a parsed value. -/

inductive JVal
  | jnull
  | jbool (b : Bool)
  | jnum (n : Int)
  | jstr (s : Str)
  | jarr (l : List JVal)
  | jobj (fields : List (Str × JVal))

/-- What `f.write(f"{url}\n")` puts on the line for one collected value.
A Slack export's `url_private_download` is a JSON string, written
verbatim; the renderings of the other (never-occurring) value shapes
are abbreviated — no claim depends on them. -/
def jvalLine : JVal → Str
  | .jstr s => s
  | .jnull => "None".data
  | .jbool true => "True".data
  | .jbool false => "False".data
  | .jnum i => if i < 0 then '-' :: Nat.toDigits 10 i.natAbs else Nat.toDigits 10 i.natAbs
  | .jarr _ => "<list>".data
  | .jobj _ => "<dict>".data

/-- The collection loops: normalize to a list of items, keep dict items
having a `files` list, and from each dict element of that list take its
`url_private_download` value. -/
def collect_urls (data : JVal) : List JVal :=
  let items := match data with | .jarr l => l | v => [v]
  items.flatMap fun item =>
    match item with
    | .jobj fields =>
      match fields.lookup "files".data with
      | some (.jarr fs) =>
        fs.filterMap fun fi =>
          match fi with
          | .jobj g => g.lookup "url_private_download".data
          | _ => none
      | _ => []
    | _ => []

inductive LoadResult
  | fileMissing
  | invalidJson
  | otherError
  | ok (v : JVal)

structure ExtractResult where
  count : Nat
  file : Str
  errorReported : Bool
deriving DecidableEq, Repr

/-- `extract_urls_from_json`: on a load error, print an error and return
0 (the function is total — nothing propagates to the caller); otherwise
append the collected URLs, one per line, to the work file and return how
many were appended.  (With zero URLs the file is not opened; appending
nothing is the same content-level result.) -/
def extract_urls_from_json (load : LoadResult) (oldFile : Str) : ExtractResult :=
  match load with
  | .ok data =>
    let extracted := collect_urls data
    { count := extracted.length
      file := oldFile ++ writeLines (extracted.map jvalLine)
      errorReported := false }
  | _ => { count := 0, file := oldFile, errorReported := true }

/-! ### Specification-side definitions

These follow the spec's wording (not the code) and exist only to be
compared with the translated definitions in refinement theorems. -/

/-- Spec wording for the filename rule: locate the *first* path segment
equal to `download`; `some (some seg)` when a following segment exists,
`some none` when it is the last segment, `none` when absent. -/
def afterFirstDownload : List Str → Option (Option Str)
  | [] => none
  | p :: ps => if p = downloadSeg then some ps.head? else afterFirstDownload ps

/-- The claim's four-case filename derivation, following the spec's words. -/
def spec_filename (url : Str) : Str :=
  let parts := splitOnChar '/' (urlPath url)
  match afterFirstDownload parts with
  | some (some seg) => seg
  | some none => "download.bin".data
  | none =>
    let b := parts.getLastD []
    if b = [] then "file.bin".data else b

/-- The amended C2 wording of the work-file rewrites, as a function of
the processed URLs and their outcomes: a skip contributes no rewrite, a
success persists exactly the not-yet-processed URLs, a permanent failure
persists those plus the failed URL tagged `[FAILED] `. -/
def specRewrites : List Str → List DLOutcome → List (List Str)
  | [], _ => []
  | _ :: _, [] => []
  | u :: us, o :: os =>
    (match o with
     | .skipped => []
     | .succeeded => [us]
     | .failedPerm => [failedTag u :: us]) ++ specRewrites us os

/-! ### Concrete data for witnesses and counterexamples -/

def hashZero : Str → Nat := fun _ => 0

def fetchAllFail : Str → Nat → FetchRes := fun _ _ => .failNoWrite

def exU1 : Str := "https://x/T1-F1/download/a.pdf".data

def exU2 : Str := "https://x/T2-F2/download/b.pdf".data

/-- Work file with two URLs; paired below with an oracle failing `exU1`
and succeeding on `exU2`. -/
def exContent12 : Str :=
  "https://x/T1-F1/download/a.pdf\nhttps://x/T2-F2/download/b.pdf\n".data

def exFetch12 : Str → Nat → FetchRes :=
  fun u _ => if u = exU2 then .success else .failNoWrite

/-- Work file with the single URL `exU1`. -/
def exContent1 : Str := "https://x/T1-F1/download/a.pdf\n".data

/-- Work file holding one `[FAILED] `-tagged line (a resumed run). -/
def exContentTagged : Str := "[FAILED] https://x/T1-F1/download/a.pdf\n".data

def exW1 : Str := "https://x/T1-F1/download/report.pdf".data

def exW2 : Str := "https://x/T2-F2/download/report.pdf".data

/-- Colliding filenames whose extracted id tokens are also equal. -/
def exColl1 : Str := "https://x/T1-F1/download/report.pdf".data

def exColl2 : Str := "https://x/T2-F1/download/report.pdf".data

def exContentColl : Str :=
  "https://x/T1-F1/download/report.pdf\nhttps://x/T2-F1/download/report.pdf\n".data

/-- The spec's §8 collision scenario: same filename, distinct id tokens. -/
def exContentW : Str :=
  "https://x/T1-F1/download/report.pdf\nhttps://x/T2-F2/download/report.pdf\n".data

/-- The spec's §8 extraction scenario record. -/
def exRecord : JVal :=
  .jobj [("files".data,
    .jarr [.jobj [("url_private_download".data, .jstr exW1)],
           .jobj [("url_private_download".data, .jstr exW2)]])]

/-! ## Lemmas -/

theorem splitOnChar_ne_nil (sep : Char) (s : Str) : splitOnChar sep s ≠ [] := by
  cases s with
  | nil => simp [splitOnChar]
  | cons c cs =>
    simp only [splitOnChar]
    by_cases h : c = sep <;> simp [h]

theorem sep_not_mem_of_mem_splitOnChar {sep : Char} {s : Str} :
    ∀ {part : Str}, part ∈ splitOnChar sep s → sep ∉ part := by
  induction s with
  | nil =>
    intro part hmem
    simp only [splitOnChar, List.mem_singleton] at hmem
    subst hmem; simp
  | cons c cs ih =>
    intro part hmem
    simp only [splitOnChar] at hmem
    by_cases h : c = sep
    · rw [if_pos h] at hmem
      rcases List.mem_cons.mp hmem with hmem | hmem
      · subst hmem; simp
      · exact ih hmem
    · rw [if_neg h] at hmem
      rcases List.mem_cons.mp hmem with hmem | hmem
      · subst hmem
        intro hc
        rcases List.mem_cons.mp hc with hc | hc
        · exact h hc.symm
        · have hhd : (splitOnChar sep cs).headD [] ∈ splitOnChar sep cs := by
            cases hsp : splitOnChar sep cs with
            | nil => exact absurd hsp (splitOnChar_ne_nil sep cs)
            | cons l ls => simp
          exact ih hhd hc
      · have h2 : part ∈ splitOnChar sep cs := by
          cases hsp : splitOnChar sep cs with
          | nil => exact absurd hsp (splitOnChar_ne_nil sep cs)
          | cons l ls =>
            rw [hsp] at hmem
            exact hsp ▸ List.mem_cons_of_mem l hmem
        exact ih h2

theorem splitOnChar_append_cons {sep : Char} (l rest : Str) (hl : sep ∉ l) :
    splitOnChar sep (l ++ sep :: rest) = l :: splitOnChar sep rest := by
  induction l with
  | nil => simp [splitOnChar]
  | cons c cs ih =>
    have hc : c ≠ sep := fun h => hl (h ▸ List.mem_cons_self c cs)
    have hcs : sep ∉ cs := fun h => hl (List.mem_cons_of_mem c h)
    show splitOnChar sep (c :: (cs ++ sep :: rest)) = _
    simp only [splitOnChar]
    rw [ih hcs, if_neg hc]
    simp

theorem splitOnChar_writeLines (ls : List Str) (h : ∀ l ∈ ls, '\n' ∉ l) :
    splitOnChar '\n' (writeLines ls) = ls ++ [[]] := by
  induction ls with
  | nil => simp [writeLines, splitOnChar]
  | cons l ls ih =>
    have hl : '\n' ∉ l := h l (List.mem_cons_self l ls)
    have hls : ∀ x ∈ ls, '\n' ∉ x := fun x hx => h x (List.mem_cons_of_mem l hx)
    show splitOnChar '\n' (l ++ '\n' :: writeLines ls) = (l :: ls) ++ [[]]
    rw [splitOnChar_append_cons l (writeLines ls) hl, ih hls]
    rfl

theorem stripEnd_eq_rdropWhile (s : Str) : stripEnd s = List.rdropWhile pyIsSpace s := rfl

theorem pyStrip_subset (s : Str) : pyStrip s ⊆ s := by
  intro c hc
  have h1 : pyStrip s ⊆ s.dropWhile pyIsSpace := by
    rw [pyStrip, stripEnd_eq_rdropWhile]
    exact (List.rdropWhile_prefix _ _).subset
  exact (List.dropWhile_suffix pyIsSpace).subset (h1 hc)

theorem dropWhile_eq_self_of_prefix {p : Char → Bool} {t u : Str}
    (ht : List.dropWhile p t = t) (hu : u <+: t) : List.dropWhile p u = u := by
  cases u with
  | nil => simp
  | cons a u' =>
    obtain ⟨r, hr⟩ := hu
    subst hr
    rw [List.dropWhile_eq_self_iff] at ht
    have h0 : 0 < (a :: u' ++ r).length := by simp
    have hpa : ¬p a := ht h0
    simp [List.dropWhile_cons, hpa]

theorem pyStrip_idempotent (s : Str) : pyStrip (pyStrip s) = pyStrip s := by
  have hds : List.dropWhile pyIsSpace (pyStrip s) = pyStrip s := by
    apply dropWhile_eq_self_of_prefix (t := List.dropWhile pyIsSpace s)
    · exact List.dropWhile_idempotent pyIsSpace s
    · rw [pyStrip, stripEnd_eq_rdropWhile]
      exact List.rdropWhile_prefix _ _
  show stripEnd (List.dropWhile pyIsSpace (pyStrip s)) = pyStrip s
  rw [hds, pyStrip, stripEnd_eq_rdropWhile, stripEnd_eq_rdropWhile,
    List.rdropWhile_idempotent]

theorem mem_readUrls_strip {content : Str} {u : Str} (h : u ∈ readUrls content) :
    pyStrip u = u ∧ u ≠ [] ∧ '\n' ∉ u := by
  rw [readUrls, List.mem_filter] at h
  obtain ⟨hmem, hne⟩ := h
  rw [List.mem_map] at hmem
  obtain ⟨t, htmem, rfl⟩ := hmem
  refine ⟨pyStrip_idempotent t, ?_, ?_⟩
  · intro hnil
    rw [hnil] at hne
    simp [List.isEmpty] at hne
  · intro hmem
    exact sep_not_mem_of_mem_splitOnChar htmem (pyStrip_subset t hmem)

theorem readUrls_writeLines (us : List Str)
    (h : ∀ u ∈ us, pyStrip u = u ∧ u ≠ [] ∧ '\n' ∉ u) :
    readUrls (writeLines us) = us := by
  rw [readUrls, splitOnChar_writeLines us (fun l hl => (h l hl).2.2), List.map_append]
  have hmap : List.map pyStrip us = us := by
    have h1 : List.map pyStrip us = List.map id us :=
      List.map_congr_left (fun a ha => (h a ha).1)
    rw [h1, List.map_id]
  rw [hmap]
  have h0 : List.map pyStrip [([] : Str)] = [[]] := rfl
  rw [h0, List.filter_append]
  have h2 : List.filter (fun l : Str => !l.isEmpty) [[]] = [] := rfl
  rw [h2, List.append_nil, List.filter_eq_self.mpr]
  intro a ha
  rcases h a ha with ⟨_, hne, _⟩
  cases a with
  | nil => exact absurd rfl hne
  | cons b bs => simp [List.isEmpty]

theorem mem_of_mem_dedupGo {l : List Str} :
    ∀ {seen u}, u ∈ dedupGo seen l → u ∈ l := by
  induction l with
  | nil => intro seen u h; simp [dedupGo] at h
  | cons v vs ih =>
    intro seen u h
    simp only [dedupGo] at h
    by_cases hv : v ∈ seen
    · rw [if_pos hv] at h
      exact List.mem_cons_of_mem v (ih h)
    · rw [if_neg hv] at h
      rcases List.mem_cons.mp h with h | h
      · rw [h]; exact List.mem_cons_self _ _
      · exact List.mem_cons_of_mem v (ih h)

theorem not_mem_seen_of_mem_dedupGo {l : List Str} :
    ∀ {seen u}, u ∈ dedupGo seen l → u ∉ seen := by
  induction l with
  | nil => intro seen u h; simp [dedupGo] at h
  | cons v vs ih =>
    intro seen u h
    simp only [dedupGo] at h
    by_cases hv : v ∈ seen
    · rw [if_pos hv] at h
      exact ih h
    · rw [if_neg hv] at h
      rcases List.mem_cons.mp h with h | h
      · exact h ▸ hv
      · intro hseen
        exact ih h (List.mem_cons_of_mem v hseen)

theorem dedupGo_nodup (l : List Str) : ∀ seen, (dedupGo seen l).Nodup := by
  induction l with
  | nil => intro seen; simp [dedupGo]
  | cons v vs ih =>
    intro seen
    simp only [dedupGo]
    by_cases hv : v ∈ seen
    · rw [if_pos hv]; exact ih seen
    · rw [if_neg hv]
      refine List.nodup_cons.mpr ⟨?_, ih (v :: seen)⟩
      intro hmem
      exact not_mem_seen_of_mem_dedupGo hmem (List.mem_cons_self v seen)

theorem dedupGo_eq_self {l : List Str} (hnd : l.Nodup) :
    ∀ seen, (∀ u ∈ l, u ∉ seen) → dedupGo seen l = l := by
  induction l with
  | nil => intro seen _; rfl
  | cons v vs ih =>
    intro seen hseen
    have hv : v ∉ seen := hseen v (List.mem_cons_self v vs)
    simp only [dedupGo, if_neg hv]
    congr 1
    apply ih (List.nodup_cons.mp hnd).2
    intro u hu hmem
    rcases List.mem_cons.mp hmem with hmem | hmem
    · exact (List.nodup_cons.mp hnd).1 (hmem ▸ hu)
    · exact hseen u (List.mem_cons_of_mem v hu) hmem

/-! ## Claims -/

/-- C5: the Deduplicator/Namer is idempotent — running `process_url_file`
a second time, on the work-file content it rewrote, yields the identical
ordered unique-URL list, the identical URL→filename mapping, and the
identical rewritten content; duplicates are removed with first-seen order
preserved by the `seen`-set loop embodied in `dedupGo`. -/
theorem C5_dedup_idempotent (content : Str) :
    process_url_file (process_url_file content).newContent = process_url_file content := by
  have hset : ∀ u ∈ dedupGo [] (readUrls content),
      pyStrip u = u ∧ u ≠ [] ∧ '\n' ∉ u :=
    fun u hu => mem_readUrls_strip (mem_of_mem_dedupGo hu)
  have hread : readUrls (writeLines (dedupGo [] (readUrls content)))
      = dedupGo [] (readUrls content) := readUrls_writeLines _ hset
  have hded : dedupGo [] (dedupGo [] (readUrls content)) = dedupGo [] (readUrls content) :=
    dedupGo_eq_self (dedupGo_nodup _ []) [] (by intro u _ hmem; simp at hmem)
  show process_url_file (writeLines (dedupGo [] (readUrls content))) = _
  rw [process_url_file, process_url_file, hread, hded]

theorem indexOf_choice (dbin : Str) :
    ∀ (parts : List Str) (F : Str),
    (if parts.indexOf downloadSeg < parts.length then
       (if parts.indexOf downloadSeg < parts.length - 1
        then parts.getD (parts.indexOf downloadSeg + 1) []
        else dbin)
     else F) =
    (match afterFirstDownload parts with
     | some (some seg) => seg
     | some none => dbin
     | none => F) := by
  intro parts
  induction parts with
  | nil => intro F; simp [afterFirstDownload, List.indexOf]
  | cons p ps ih =>
    intro F
    by_cases hp : p = downloadSeg
    · have h0 : (p :: ps).indexOf downloadSeg = 0 := by
        rw [List.indexOf_cons]
        simp [hp]
      rw [afterFirstDownload, if_pos hp, h0]
      cases ps with
      | nil => simp
      | cons q qs => simp
    · have hbeq : (p == downloadSeg) = false := beq_false_of_ne hp
      have hstep : (p :: ps).indexOf downloadSeg = ps.indexOf downloadSeg + 1 := by
        rw [List.indexOf_cons, hbeq]
        rfl
      rw [afterFirstDownload, if_neg hp, ← ih F, hstep]
      have hc1 : (ps.indexOf downloadSeg + 1 < (p :: ps).length)
          ↔ (ps.indexOf downloadSeg < ps.length) := by
        simp only [List.length_cons]
        omega
      have hc2 : (ps.indexOf downloadSeg + 1 < (p :: ps).length - 1)
          ↔ (ps.indexOf downloadSeg < ps.length - 1) := by
        simp only [List.length_cons]
        omega
      rw [if_congr hc1 (if_congr hc2 (by rw [List.getD_cons_succ]) rfl) rfl]

/-- C6: for every URL, the derived `original_filename` follows the
spec's four cases — the segment after the first path segment equal to
`download` when one follows; `download.bin` when that segment is last;
the final path segment (basename) when no `download` segment exists; and
`file.bin` when that basename is empty.  Stated as a refinement: the
translated `get_filename` equals the spec-worded `spec_filename`. -/
theorem C6_filename_refines (url : Str) : get_filename url = spec_filename url := by
  simp only [get_filename, spec_filename, basename]
  exact indexOf_choice _ _ _

theorem processOne_char (m : List (Str × Str)) (h : Str → Nat) (f : Str → Nat → FetchRes)
    (u : Str) (rest : List Str) (s : DLState) :
    ∃ o : DLOutcome,
      (processOne m h f u rest s).outcomes = s.outcomes ++ [o] ∧
      (processOne m h f u rest s).rewrites = s.rewrites ++
        (match o with
         | .skipped => []
         | .succeeded => [rest]
         | .failedPerm => [failedTag u :: rest]) ∧
      (processOne m h f u rest s).fileLines =
        (match o with
         | .skipped => s.fileLines
         | .succeeded => rest
         | .failedPerm => failedTag u :: rest) ∧
      (processOne m h f u rest s).success_count + (processOne m h f u rest s).fail_count
          + (processOne m h f u rest s).skipped_count
        = s.success_count + s.fail_count + s.skipped_count + 1 ∧
      s.files ⊆ (processOne m h f u rest s).files := by
  unfold processOne
  by_cases hmem : target_name m h u ∈ s.files
  · refine ⟨.skipped, ?_⟩
    rw [if_pos hmem]
    simp
    omega
  · rw [if_neg hmem]
    by_cases hok : (attempt_loop (f u) 0).ok
    · refine ⟨.succeeded, ?_⟩
      rw [if_pos hok]
      simp
      omega
    · refine ⟨.failedPerm, ?_⟩
      rw [if_neg hok]
      simp
      omega

theorem processOne_fetchLog_sub (m : List (Str × Str)) (h : Str → Nat)
    (f : Str → Nat → FetchRes) (u : Str) (rest : List Str) (s : DLState) :
    ∀ p ∈ (processOne m h f u rest s).fetchLog, p ∈ s.fetchLog ∨ p.1 = u := by
  intro p hp
  unfold processOne at hp
  by_cases hmem : target_name m h u ∈ s.files
  · rw [if_pos hmem] at hp
    exact Or.inl hp
  · rw [if_neg hmem] at hp
    by_cases hok : (attempt_loop (f u) 0).ok
    · rw [if_pos hok] at hp
      simp only at hp
      rcases List.mem_append.mp hp with hp | hp
      · exact Or.inl hp
      · right
        obtain ⟨r, _, hr⟩ := List.mem_map.mp hp
        rw [← hr]
    · rw [if_neg hok] at hp
      simp only at hp
      rcases List.mem_append.mp hp with hp | hp
      · exact Or.inl hp
      · right
        obtain ⟨r, _, hr⟩ := List.mem_map.mp hp
        rw [← hr]

theorem processOne_skip_log (m : List (Str × Str)) (h : Str → Nat)
    (f : Str → Nat → FetchRes) (u : Str) (rest : List Str) (s : DLState)
    (hmem : target_name m h u ∈ s.files) :
    (processOne m h f u rest s).fetchLog = s.fetchLog ∧
    (processOne m h f u rest s).files = s.files := by
  unfold processOne
  rw [if_pos hmem]
  exact ⟨rfl, rfl⟩

theorem processOne_files_mono (m : List (Str × Str)) (h : Str → Nat)
    (f : Str → Nat → FetchRes) (u : Str) (rest : List Str) (s : DLState) :
    s.files ⊆ (processOne m h f u rest s).files := by
  obtain ⟨o, _, _, _, _, hsub⟩ := processOne_char m h f u rest s
  exact hsub

theorem run_loop_char (m : List (Str × Str)) (h : Str → Nat) (f : Str → Nat → FetchRes) :
    ∀ (l : List Str) (s : DLState),
      ∃ O : List DLOutcome,
        O.length = l.length ∧
        (run_loop m h f l s).outcomes = s.outcomes ++ O ∧
        (run_loop m h f l s).rewrites = s.rewrites ++ specRewrites l O ∧
        (run_loop m h f l s).fileLines = ((specRewrites l O).getLast?).getD s.fileLines ∧
        (run_loop m h f l s).success_count + (run_loop m h f l s).fail_count
            + (run_loop m h f l s).skipped_count
          = s.success_count + s.fail_count + s.skipped_count + l.length ∧
        s.files ⊆ (run_loop m h f l s).files := by
  intro l
  induction l with
  | nil =>
    intro s
    exact ⟨[], rfl, by simp [run_loop, specRewrites], by simp [run_loop, specRewrites],
      by simp [run_loop, specRewrites], by simp [run_loop], by simp [run_loop]⟩
  | cons u rest ih =>
    intro s
    obtain ⟨o, ho1, ho2, ho3, ho4, ho5⟩ := processOne_char m h f u rest s
    obtain ⟨O, hl, h1, h2, h3, h4, h5⟩ := ih (processOne m h f u rest s)
    refine ⟨o :: O, by simp [hl], ?_, ?_, ?_, ?_, ?_⟩
    · rw [show run_loop m h f (u :: rest) s = run_loop m h f rest (processOne m h f u rest s) from rfl,
        h1, ho1, List.append_assoc]
      rfl
    · rw [show run_loop m h f (u :: rest) s = run_loop m h f rest (processOne m h f u rest s) from rfl,
        h2, ho2, List.append_assoc]
      rfl
    · rw [show run_loop m h f (u :: rest) s = run_loop m h f rest (processOne m h f u rest s) from rfl,
        h3, ho3]
      cases o with
      | skipped => rfl
      | succeeded =>
        show (specRewrites rest O).getLast?.getD rest
            = (([rest] ++ specRewrites rest O).getLast?).getD s.fileLines
        cases hsp : (specRewrites rest O).getLast? with
        | none =>
          rw [List.getLast?_eq_none_iff] at hsp
          simp [hsp]
        | some x =>
          have hne : specRewrites rest O ≠ [] := by
            intro hnil; rw [hnil] at hsp; simp at hsp
          obtain ⟨y, ys, hly⟩ := List.exists_cons_of_ne_nil hne
          rw [hly] at hsp ⊢
          rw [List.singleton_append, List.getLast?_cons_cons, hsp]
          rfl
      | failedPerm =>
        show (specRewrites rest O).getLast?.getD (failedTag u :: rest)
            = (([failedTag u :: rest] ++ specRewrites rest O).getLast?).getD s.fileLines
        cases hsp : (specRewrites rest O).getLast? with
        | none =>
          rw [List.getLast?_eq_none_iff] at hsp
          simp [hsp]
        | some x =>
          have hne : specRewrites rest O ≠ [] := by
            intro hnil; rw [hnil] at hsp; simp at hsp
          obtain ⟨y, ys, hly⟩ := List.exists_cons_of_ne_nil hne
          rw [hly] at hsp ⊢
          rw [List.singleton_append, List.getLast?_cons_cons, hsp]
          rfl
    · rw [show run_loop m h f (u :: rest) s = run_loop m h f rest (processOne m h f u rest s) from rfl]
      rw [List.length_cons]
      omega
    · exact fun x hx => h5 (ho5 hx)

theorem run_loop_fetch_src (m : List (Str × Str)) (h : Str → Nat) (f : Str → Nat → FetchRes) :
    ∀ (l : List Str) (s : DLState) (p : Str × Nat),
      p ∈ (run_loop m h f l s).fetchLog → p ∈ s.fetchLog ∨ p.1 ∈ l := by
  intro l
  induction l with
  | nil => intro s p hp; exact Or.inl hp
  | cons u rest ih =>
    intro s p hp
    rcases ih (processOne m h f u rest s) p hp with hp' | hp'
    · rcases processOne_fetchLog_sub m h f u rest s p hp' with hp'' | hp''
      · exact Or.inl hp''
      · exact Or.inr (hp'' ▸ List.mem_cons_self _ _)
    · exact Or.inr (List.mem_cons_of_mem u hp')

theorem run_loop_no_fetch (m : List (Str × Str)) (h : Str → Nat) (f : Str → Nat → FetchRes) :
    ∀ (l : List Str) (s : DLState) (u : Str),
      target_name m h u ∈ s.files → (∀ r, (u, r) ∉ s.fetchLog) →
      ∀ r, (u, r) ∉ (run_loop m h f l s).fetchLog := by
  intro l
  induction l with
  | nil => intro s u _ hlog r; exact hlog r
  | cons v rest ih =>
    intro s u hfile hlog r
    by_cases huv : v = u
    · subst huv
      obtain ⟨hlog', hfiles'⟩ := processOne_skip_log m h f v rest s hfile
      apply ih (processOne m h f v rest s) v
      · rw [hfiles']; exact hfile
      · intro r'; rw [hlog']; exact hlog r'
    · apply ih (processOne m h f v rest s) u
      · exact processOne_files_mono m h f v rest s hfile
      · intro r' hmem
        rcases processOne_fetchLog_sub m h f v rest s (u, r') hmem with hmem' | hmem'
        · exact hlog r' hmem'
        · exact huv hmem'.symm

/-- C10: in every run of the Download Executor, each deduplicated URL
reaches exactly one terminal outcome, so the final counters satisfy
`success_count + fail_count + skipped_count = number of unique URLs`, and
the returned pair is exactly `(success_count, fail_count)` — the skip
count is excluded from the return value. -/
theorem C10_outcome_partition (content : Str) (files0 : List Str) (pyHash : Str → Nat)
    (fetch : Str → Nat → FetchRes) :
    (download_run content files0 pyHash fetch).success_count
      + (download_run content files0 pyHash fetch).fail_count
      + (download_run content files0 pyHash fetch).skipped_count
      = (process_url_file content).unique_urls.length
    ∧ download_files_from_urls content files0 pyHash fetch
      = ((download_run content files0 pyHash fetch).success_count,
         (download_run content files0 pyHash fetch).fail_count) := by
  unfold download_run
  obtain ⟨O, hlen, h1, h2, h3, h4, h5⟩ :=
    run_loop_char (process_url_file content).filename_mapping pyHash fetch
      (process_url_file content).unique_urls
      (initState files0 (process_url_file content).unique_urls)
  constructor
  · simpa [initState] using h4
  · rfl

/-- C2 (amended): the executor rewrites the work file after every
success (persisting exactly the not-yet-processed URLs) and after every
permanent failure (those plus the failed URL tagged `[FAILED] `), and a
batch of skips triggers no rewrite — the rewrite trace is exactly
`specRewrites`, and the finally persisted content is the last such
rewrite (or the initial deduplicated list when no rewrite happened). -/
theorem C2_rewrite_discipline (content : Str) (files0 : List Str) (pyHash : Str → Nat)
    (fetch : Str → Nat → FetchRes) :
    (download_run content files0 pyHash fetch).rewrites
        = specRewrites (process_url_file content).unique_urls
            (download_run content files0 pyHash fetch).outcomes
    ∧ (download_run content files0 pyHash fetch).fileLines
        = (((download_run content files0 pyHash fetch).rewrites).getLast?).getD
            (process_url_file content).unique_urls := by
  unfold download_run
  obtain ⟨O, hlen, h1, h2, h3, h4, h5⟩ :=
    run_loop_char (process_url_file content).filename_mapping pyHash fetch
      (process_url_file content).unique_urls
      (initState files0 (process_url_file content).unique_urls)
  have h1' : (run_loop (process_url_file content).filename_mapping pyHash fetch
      (process_url_file content).unique_urls
      (initState files0 (process_url_file content).unique_urls)).outcomes = O := by
    simpa [initState] using h1
  have h2' : (run_loop (process_url_file content).filename_mapping pyHash fetch
      (process_url_file content).unique_urls
      (initState files0 (process_url_file content).unique_urls)).rewrites
      = specRewrites (process_url_file content).unique_urls O := by
    simpa [initState] using h2
  constructor
  · rw [h2', h1']
  · rw [h3, h2']
    rfl

/-- C9: a URL whose resolved (sanitized) target filename already exists
in the download directory is never fetched — no `requests.get` call for
it appears in the run's fetch log; it is skipped and processing moves
on. -/
theorem C9_skip_no_fetch (content : Str) (files0 : List Str) (pyHash : Str → Nat)
    (fetch : Str → Nat → FetchRes) (u : Str) (r : Nat)
    (hfile : target_name (process_url_file content).filename_mapping pyHash u ∈ files0) :
    (u, r) ∉ (download_run content files0 pyHash fetch).fetchLog := by
  unfold download_run
  apply run_loop_no_fetch
  · exact hfile
  · intro r' hmem
    simp [initState] at hmem

/-- C3 (amended): the executor only ever fetches strings that appear in
the deduplicated work file, so a URL absent from the work file — one
removed after a successful download, or one present only in its
`[FAILED] `-prefixed form — is never fetched; and the prefixed line is a
different string from the bare URL, so re-processing it can never fetch
the original resource. -/
theorem C3_resume_no_refetch (content : Str) (files0 : List Str) (pyHash : Str → Nat)
    (fetch : Str → Nat → FetchRes) (u : Str) (r : Nat)
    (hnot : u ∉ (process_url_file content).unique_urls) :
    (u, r) ∉ (download_run content files0 pyHash fetch).fetchLog ∧ failedTag u ≠ u := by
  constructor
  · intro hmem
    unfold download_run at hmem
    rcases run_loop_fetch_src _ _ _ _ _ _ hmem with hmem' | hmem'
    · simp [initState] at hmem'
    · exact hnot hmem'
  · intro heq
    have hlen := congrArg List.length heq
    rw [failedTag, List.length_append] at hlen
    have h9 : ("[FAILED] ".data).length = 9 := rfl
    omega

/-- C7: the attempt loop terminates in at most 4 fetch attempts; when
all attempts fail it makes exactly 4 and sleeps the backoffs
`[30, 30, 90]` (30 s after the 1st and 2nd failures, 90 s after the
3rd); on success the backoffs slept are the first `attempts - 1` of that
list; and the outer loop consumes the whole remaining-URL list, giving
every unique URL a terminal outcome. -/
theorem C7_retry_budget (fetch : Nat → FetchRes) (content : Str) (files0 : List Str)
    (pyHash : Str → Nat) (fetchS : Str → Nat → FetchRes) :
    (attempt_loop fetch 0).attempts ≤ 4
    ∧ ((attempt_loop fetch 0).ok = false →
        (attempt_loop fetch 0).attempts = 4 ∧ (attempt_loop fetch 0).backoffs = [30, 30, 90])
    ∧ ((attempt_loop fetch 0).ok = true →
        (attempt_loop fetch 0).backoffs
          = List.take ((attempt_loop fetch 0).attempts - 1) [30, 30, 90])
    ∧ (download_run content files0 pyHash fetchS).outcomes.length
        = (process_url_file content).unique_urls.length := by
  refine ⟨?_, ?_, ?_, ?_⟩
  case refine_4 =>
    unfold download_run
    obtain ⟨O, hlen, h1, h2, h3, h4, h5⟩ :=
      run_loop_char (process_url_file content).filename_mapping pyHash fetchS
        (process_url_file content).unique_urls
        (initState files0 (process_url_file content).unique_urls)
    rw [h1, ← hlen]
    simp [initState]
  all_goals
    rcases h0 : fetch 0 <;> rcases h1 : fetch 1 <;> rcases h2 : fetch 2 <;> rcases h3 : fetch 3 <;>
      simp [attempt_loop, attempt_go, max_retries, h0, h1, h2, h3]

theorem lookup_map_pair (G : Str → Str × Str) (hfst : ∀ x, (G x).1 = x) :
    ∀ (l : List Str), l.Nodup → ∀ u ∈ l, (l.map G).lookup u = some (G u).2 := by
  intro l
  induction l with
  | nil => intro _ u hu; simp at hu
  | cons v vs ih =>
    intro hnd u hu
    have hGv : G v = (v, (G v).2) := by
      conv_lhs => rw [← Prod.mk.eta (p := G v)]
      rw [hfst v]
    rw [List.map_cons, hGv]
    by_cases huv : u = v
    · subst huv
      simp [List.lookup]
    · have hu' : u ∈ vs := by
        rcases List.mem_cons.mp hu with hm | hm
        · exact absurd hm huv
        · exact hm
      have hbeq : (u == v) = false := beq_false_of_ne huv
      simp only [List.lookup, hbeq]
      exact ih (List.nodup_cons.mp hnd).2 u hu'

theorem count_gt_one_of_two_mem {f : Str → Str} {l : List Str} {u1 u2 : Str}
    (h1 : u1 ∈ l) (h2 : u2 ∈ l) (hne : u1 ≠ u2) (hf : f u1 = f u2) :
    1 < (l.map f).count (f u1) := by
  obtain ⟨s, t, rfl⟩ := List.append_of_mem h1
  have h2' : u2 ∈ s ∨ u2 ∈ t := by
    rcases List.mem_append.mp h2 with hm | hm
    · exact Or.inl hm
    · rcases List.mem_cons.mp hm with hm | hm
      · exact absurd hm.symm hne
      · exact Or.inr hm
  rw [List.map_append, List.map_cons, List.count_append, List.count_cons_self]
  rcases h2' with hm | hm
  · have hpos : 0 < (s.map f).count (f u1) := by
      rw [hf]
      exact List.count_pos_iff.mpr (List.mem_map_of_mem f hm)
    omega
  · have hpos : 0 < (t.map f).count (f u1) := by
      rw [hf]
      exact List.count_pos_iff.mpr (List.mem_map_of_mem f hm)
    omega

theorem mk_url_info_fields (u : Str) :
    (mk_url_info u).original_filename = get_filename u
    ∧ (mk_url_info u).base_name = (rsplitDotParts (get_filename u)).1
    ∧ (mk_url_info u).extension = (rsplitDotParts (get_filename u)).2
    ∧ (mk_url_info u).id = extract_id (urlPath u) := by
  refine ⟨?_, ?_, ?_, ?_⟩ <;> simp only [mk_url_info]

theorem mapped_names_distinct (l : List Str) (hnd : l.Nodup) (u1 u2 t1 t2 : Str)
    (h1 : u1 ∈ l) (h2 : u2 ∈ l) (hne : u1 ≠ u2)
    (horig : get_filename u1 = get_filename u2)
    (hid1 : searchId (urlPath u1) = some t1)
    (hid2 : searchId (urlPath u2) = some t2)
    (ht : t1 ≠ t2) :
    (l.map (fun u => (u, unique_filename (l.map mk_url_info) (mk_url_info u)))).lookup u1
      ≠ (l.map (fun u => (u, unique_filename (l.map mk_url_info) (mk_url_info u)))).lookup u2 := by
  have hl1 := lookup_map_pair
    (fun u => (u, unique_filename (l.map mk_url_info) (mk_url_info u)))
    (fun x => rfl) l hnd u1 h1
  have hl2 := lookup_map_pair
    (fun u => (u, unique_filename (l.map mk_url_info) (mk_url_info u)))
    (fun x => rfl) l hnd u2 h2
  rw [hl1, hl2]
  have hofs : ((l.map mk_url_info).map (fun i => i.original_filename))
      = l.map get_filename := by
    rw [List.map_map]
    apply List.map_congr_left
    intro a _
    exact (mk_url_info_fields a).1
  have hcount1 : 1 < ((l.map mk_url_info).map
      (fun i => i.original_filename)).count (mk_url_info u1).original_filename := by
    rw [(mk_url_info_fields u1).1, hofs]
    exact count_gt_one_of_two_mem h1 h2 hne horig
  have hcount2 : 1 < ((l.map mk_url_info).map
      (fun i => i.original_filename)).count (mk_url_info u2).original_filename := by
    rw [(mk_url_info_fields u2).1, hofs]
    exact count_gt_one_of_two_mem h2 h1 (Ne.symm hne) horig.symm
  simp only [unique_filename, if_pos hcount1, if_pos hcount2]
  intro heq
  injection heq with heq
  rw [(mk_url_info_fields u1).2.1, (mk_url_info_fields u2).2.1,
    (mk_url_info_fields u1).2.2.1, (mk_url_info_fields u2).2.2.1,
    (mk_url_info_fields u1).2.2.2, (mk_url_info_fields u2).2.2.2,
    horig] at heq
  simp only [extract_id, hid1, hid2] at heq
  have h5 := List.append_cancel_right heq
  have h6 := List.append_cancel_left h5
  injection h6 with _ h7
  exact ht h7

/-- C4 (amended): two distinct URLs of the work file that collide on
their original filename and carry extractable, *distinct* id tokens
(second capture of `/([A-Z0-9]+)-([A-Z0-9]+)/download/`) are assigned
distinct mapped filenames.  (With equal tokens the mapped names
coincide — see the counterexample — and distinctness across different
original filenames is not guaranteed.) -/
theorem C4_collision_distinct (content : Str) (u1 u2 t1 t2 : Str)
    (h1 : u1 ∈ (process_url_file content).unique_urls)
    (h2 : u2 ∈ (process_url_file content).unique_urls)
    (hne : u1 ≠ u2)
    (horig : get_filename u1 = get_filename u2)
    (hid1 : searchId (urlPath u1) = some t1)
    (hid2 : searchId (urlPath u2) = some t2)
    (ht : t1 ≠ t2) :
    (process_url_file content).filename_mapping.lookup u1
      ≠ (process_url_file content).filename_mapping.lookup u2 := by
  have hmap : (process_url_file content).filename_mapping
      = ((process_url_file content).unique_urls).map
          (fun u => (u, unique_filename
            (((process_url_file content).unique_urls).map mk_url_info) (mk_url_info u))) := by
    show (((dedupGo [] (readUrls content)).map mk_url_info).map _) = _
    rw [List.map_map]
    apply List.map_congr_left
    intro a _
    simp only [Function.comp, mk_url_info]
    rfl
  have hnd : ((process_url_file content).unique_urls).Nodup := dedupGo_nodup _ []
  rw [hmap]
  exact mapped_names_distinct _ hnd u1 u2 t1 t2 h1 h2 hne horig hid1 hid2 ht

/-- C1 (code bug): evaluating the executor on a work file with two URLs
where the first permanently fails (4 failed attempts) and the second
then succeeds.  The failure rewrite does persist
`[FAILED] exU1 :: [exU2]`, but the success rewrite that follows persists
only the remaining list — the finally persisted work file is empty and
the `[FAILED]` line is silently lost, contradicting the claim (and the
spec's "retained … so it is not silently lost" / "shrinks to empty (or
to only `[FAILED]`-tagged entries)"). -/
theorem C1_failed_line_lost :
    (download_run exContent12 [] hashZero exFetch12).rewrites
        = [[failedTag exU1, exU2], []]
    ∧ (download_run exContent12 [] hashZero exFetch12).fileLines = []
    ∧ (download_run exContent12 [] hashZero exFetch12).success_count = 1
    ∧ (download_run exContent12 [] hashZero exFetch12).fail_count = 1 := by
  decide

/-- C2 counterexample: a run whose single URL is skipped (its target
file already exists).  The skip batch completes, the run ends, yet no
rewrite happened and the persisted work file still contains the skipped
URL — refuting "a URL marked Skipped is removed from the persisted work
file when its skip batch completes". -/
theorem C2_skip_retained_cx :
    (download_run exContent1 ["a.pdf".data] hashZero fetchAllFail).outcomes
        = [DLOutcome.skipped]
    ∧ (download_run exContent1 ["a.pdf".data] hashZero fetchAllFail).rewrites = []
    ∧ (download_run exContent1 ["a.pdf".data] hashZero fetchAllFail).fileLines = [exU1] := by
  decide

/-- C3 counterexample: re-running over a work file holding one
`[FAILED] `-tagged line.  The executor processes the tagged line as a
URL: it issues fetches for it (four attempts), counts a new permanent
failure, and re-tags the line with a second `[FAILED] ` prefix —
refuting "a work-file line prefixed with `[FAILED] ` is never attempted
again — no fetch is issued for it". -/
theorem C3_tagged_line_fetched_cx :
    (failedTag exU1, 0)
        ∈ (download_run exContentTagged [] hashZero fetchAllFail).fetchLog
    ∧ (download_run exContentTagged [] hashZero fetchAllFail).fail_count = 1
    ∧ (download_run exContentTagged [] hashZero fetchAllFail).fileLines
        = [failedTag (failedTag exU1)] := by
  decide

/-- C4 counterexample: two distinct colliding URLs whose id patterns both
match but yield the *same* second token `F1`.  Both are mapped to
`report-F1.pdf`, so the mapping is not pairwise distinct even though
every colliding URL has an extractable id token. -/
theorem C4_same_token_collision_cx :
    exColl1 ≠ exColl2
    ∧ searchId (urlPath exColl1) = some "F1".data
    ∧ searchId (urlPath exColl2) = some "F1".data
    ∧ (process_url_file exContentColl).filename_mapping.lookup exColl1
        = (process_url_file exContentColl).filename_mapping.lookup exColl2
    ∧ (process_url_file exContentColl).filename_mapping.lookup exColl1
        = some "report-F1.pdf".data := by
  decide

/-- C8: a load error (missing file or invalid JSON) reports an error and
yields count 0 with the work file untouched — the function is total, so
nothing is raised to the caller; a successful load appends the collected
URLs to the old content, one line each, and returns exactly the number
of lines appended (append mode: the old content stays as the file's
head). -/
theorem C8_extractor (load : LoadResult) (oldFile : Str) :
    ((load = LoadResult.fileMissing ∨ load = LoadResult.invalidJson) →
      (extract_urls_from_json load oldFile).count = 0
      ∧ (extract_urls_from_json load oldFile).file = oldFile
      ∧ (extract_urls_from_json load oldFile).errorReported = true)
    ∧ (∀ v, load = LoadResult.ok v →
      ∃ ls : List Str,
        (extract_urls_from_json load oldFile).file = oldFile ++ writeLines ls
        ∧ ls.length = (extract_urls_from_json load oldFile).count
        ∧ (extract_urls_from_json load oldFile).errorReported = false) := by
  constructor
  · intro herr
    rcases herr with h | h <;> subst h <;> exact ⟨rfl, rfl, rfl⟩
  · intro v hv
    subst hv
    refine ⟨(collect_urls v).map jvalLine, rfl, ?_, rfl⟩
    simp [extract_urls_from_json]

theorem C8_extractor_witness :
    (extract_urls_from_json LoadResult.fileMissing []).count = 0
    ∧ (extract_urls_from_json LoadResult.fileMissing []).file = []
    ∧ (extract_urls_from_json LoadResult.fileMissing []).errorReported = true :=
  (C8_extractor LoadResult.fileMissing []).1 (Or.inl rfl)

theorem C3_resume_no_refetch_witness :
    (exU1, 0) ∉ (download_run exContentTagged [] hashZero fetchAllFail).fetchLog
    ∧ failedTag exU1 ≠ exU1 :=
  C3_resume_no_refetch exContentTagged [] hashZero fetchAllFail exU1 0 (by decide)

theorem C4_collision_distinct_witness :
    (process_url_file exContentW).filename_mapping.lookup exW1
        ≠ (process_url_file exContentW).filename_mapping.lookup exW2
    ∧ (process_url_file exContentW).filename_mapping.lookup exW1
        = some "report-F1.pdf".data
    ∧ (process_url_file exContentW).filename_mapping.lookup exW2
        = some "report-F2.pdf".data :=
  ⟨C4_collision_distinct exContentW exW1 exW2 "F1".data "F2".data
      (by decide) (by decide) (by decide) (by decide) (by decide) (by decide) (by decide),
    by decide, by decide⟩

theorem C7_retry_budget_witness :
    (attempt_loop (fun _ => FetchRes.failNoWrite) 0).attempts = 4
    ∧ (attempt_loop (fun _ => FetchRes.failNoWrite) 0).backoffs = [30, 30, 90] :=
  (C7_retry_budget (fun _ => FetchRes.failNoWrite) exContent1 [] hashZero fetchAllFail).2.1
    (by decide)

theorem C9_skip_no_fetch_witness :
    (exU1, 0) ∉ (download_run exContent1 ["a.pdf".data] hashZero fetchAllFail).fetchLog :=
  C9_skip_no_fetch exContent1 ["a.pdf".data] hashZero fetchAllFail exU1 0 (by decide)
